import Mathlib

/-
Verification development for the reactivity core of the repository:
dependency tracking (`track`), triggering (`trigger`), re-runnable
effects (`run`, `stop`, `cleanup`), and derived values (`computed`).

The embedding translates `src/packages/reactivity/src/effect.ts`,
`src/packages/reactivity/src/reactive.ts` and the computed module
(`src/unnamed/part_000`) into pure Lean functions over an explicit
state record.  JavaScript Sets are modelled as duplicate-free lists in
insertion order (Set.add appends when absent, Set.delete removes the
element, forEach iterates insertion order); Maps are modelled as total
functions together with an insertion-order key list; object identity
is modelled by natural numbers.
-/

namespace VueCore

/-- Identity of a reactive effect (object identity in the source). -/
abbrev EffectId := Nat

/-- Identity of a tracked target object. -/
abbrev Target := Nat

/-- Tracked keys.  JavaScript keys are strings or symbols; the model keeps
the distinguished string key `length` (used for arrays), the symbol
`ITERATE_KEY`, a marker for the absent (`undefined`) key, and an injective
supply `k i` for all remaining string keys. -/
inductive RKey where
  | k (i : Nat)
  | length
  | iter
  | undef
deriving DecidableEq, Repr

/-- Modelled from the spec: the `OperationTypes` enum of `operations.ts` is
imported by `effect.ts` but its file is not under `src/`; the spec names the
change kinds GET, HAS, ITERATE, SET, ADD, DELETE, CLEAR. -/
inductive OpType where
  | get
  | has
  | iterate
  | set
  | add
  | delete
  | clear
deriving DecidableEq, Repr

/-- Dependency identity: each subscriber Set is uniquely associated with one
(target, key) pair, so an entry of an effect deps list is such a pair. -/
abbrev DepKey := Target × RKey

/-- Update of a one-argument function map at one point. -/
def upd1 {α : Type} (f : Nat → α) (i : Nat) (v : α) : Nat → α :=
  fun j => if j = i then v else f j

/-- Update of a two-argument function map at one point. -/
def upd2 {α : Type} (f : Target → RKey → α) (t : Target) (k : RKey) (v : α) :
    Target → RKey → α :=
  fun t' k' => if t' = t ∧ k' = k then v else f t' k'

/-- JavaScript Set.add: append if not yet a member (insertion order kept). -/
def insertIdem (l : List EffectId) (e : EffectId) : List EffectId :=
  if e ∈ l then l else l ++ [e]

/-- Global state of the reactivity core.

`active`, `isComputed`, `depsOf` are the per-effect fields of the
`ReactiveEffect` record; `tracked`/`keysOf`/`depSet` together model the
`targetMap` WeakMap of key-to-dep Maps (`tracked t` is `targetMap.has(t)`,
`keysOf t` lists the keys present in the Map for `t` in insertion order, and
`depSet t k` is the subscriber Set stored under key `k`, `[]` when the Set is
absent or empty); `stack` is `activeReactiveEffectStack`; `shouldTrack` is
the module-level tracking flag; `isArr t` records whether target `t` is an
array (`Array.isArray`); `dataOf` is the backing storage of the tracked
objects themselves (used by scenario computations); `dirty` and `cval` are
the closure state of the single derived value under study (`let dirty`,
`let value` in `computed`). -/
structure Sys where
  active : EffectId → Bool
  isComputed : EffectId → Bool
  depsOf : EffectId → List DepKey
  tracked : Target → Bool
  keysOf : Target → List RKey
  depSet : Target → RKey → List EffectId
  isArr : Target → Bool
  stack : List EffectId
  shouldTrack : Bool
  dataOf : Target → RKey → Int
  dirty : Bool
  cval : Option Int

/-- Translation of `cleanup` (effect.ts): delete the effect from every
subscriber Set recorded in its deps list, then empty the list.  The
`deps.length` guard of the source is kept. -/
def cleanup (e : EffectId) (s : Sys) : Sys :=
  if (s.depsOf e).isEmpty then s
  else
    { s with
      depSet := fun t k =>
        if (t, k) ∈ s.depsOf e then (s.depSet t k).filter (fun x => x != e)
        else s.depSet t k,
      depsOf := upd1 s.depsOf e [] }

/-- Key normalization done at the top of `track`: an ITERATE operation is
recorded under the reserved `ITERATE_KEY`. -/
def normKey (ty : OpType) (key : RKey) : RKey :=
  if ty = OpType.iterate then RKey.iter else key

/-- On-demand creation of the key-to-dep Map of a target inside `track`:
`targetMap.set(target, new Map())` when absent. -/
def ensureMap (t : Target) (s : Sys) : Sys :=
  if s.tracked t then s else { s with tracked := upd1 s.tracked t true }

/-- On-demand creation of the subscriber Set of a key inside `track`:
`depsMap.set(key, new Set())` when absent (an empty Set, so `depSet` itself
is unchanged; only the key list of the Map grows). -/
def ensureDep (t : Target) (k : RKey) (s : Sys) : Sys :=
  if k ∈ s.keysOf t then s
  else { s with keysOf := upd1 s.keysOf t (s.keysOf t ++ [k]) }

/-- Membership step of `track`: when the effect is not yet in the Set, add
it and push the Set onto the effect deps list; otherwise nothing. -/
def depAdd (e : EffectId) (t : Target) (k : RKey) (s : Sys) : Sys :=
  if e ∈ s.depSet t k then s
  else
    { s with
      depSet := upd2 s.depSet t k (s.depSet t k ++ [e]),
      depsOf := upd1 s.depsOf e (s.depsOf e ++ [(t, k)]) }

/-- Translation of `track` (effect.ts): no-op when tracking is paused or the
stack is empty; otherwise create the key-to-dep Map and the subscriber Set on
demand and, when the current (top of stack) effect is not yet a member, add
it to the Set and push the Set onto the effect deps list.  The `onTrack`
debug callback has no state effect and is omitted. -/
def trackPrim (t : Target) (ty : OpType) (key : RKey) (s : Sys) : Sys :=
  if s.shouldTrack = false then s
  else
    match s.stack.getLast? with
    | none => s
    | some e => depAdd e t (normKey ty key) (ensureDep t (normKey ty key) (ensureMap t s))

/-- State just before the computation is invoked inside `run`: the effect is
detached from all its subscriber Sets and pushed onto the stack. -/
def pushedState (e : EffectId) (s : Sys) : Sys :=
  { cleanup e s with stack := (cleanup e s).stack ++ [e] }

/-- Removal of the last stack entry, the `finally` pop of `run`. -/
def Sys.popStack (s : Sys) : Sys :=
  { s with stack := s.stack.dropLast }

/-- Translation of `run` (effect.ts).  A computation is a state transformer
that either returns a value or fails (`Except.error` models a thrown
exception; the post-throw state is still produced, matching JavaScript where
mutations before the throw persist).  An inactive effect just invokes the
computation; an effect already on the stack falls through the `if` and the
function returns `undefined` (`none`) without invoking anything; otherwise
cleanup, push, invoke, and pop in a `finally` that runs on both exits. -/
def runEff (e : EffectId) (fn : Sys → Sys × Except Unit Int) (s : Sys) :
    Sys × Except Unit (Option Int) :=
  if s.active e = false then ((fn s).1, ((fn s).2).map some)
  else if e ∈ s.stack then (s, Except.ok none)
  else ((fn (pushedState e s)).1.popStack, ((fn (pushedState e s)).2).map some)

/-- Translation of `stop` (effect.ts): when active, cleanup and flip the
active flag; otherwise nothing.  The `onStop` debug callback has no state
effect and is omitted. -/
def stopEff (e : EffectId) (s : Sys) : Sys :=
  if s.active e then
    { cleanup e s with active := upd1 (cleanup e s).active e false }
  else s

/-- Translation of `addRunners` (effect.ts): distribute the members of one
subscriber Set into the pair (plain effects, computed runners), each a
JavaScript Set modelled with idempotent insertion.  An absent Set is the
empty list. -/
def addRunners (s : Sys) (acc : List EffectId × List EffectId)
    (dep : List EffectId) : List EffectId × List EffectId :=
  dep.foldl
    (fun p x =>
      if s.isComputed x then (p.1, insertIdem p.2 x) else (insertIdem p.1 x, p.2))
    acc

/-- Iteration key chosen by `trigger` for ADD/DELETE: `length` for arrays,
the reserved iterate key otherwise. -/
def iterationKey (t : Target) (s : Sys) : RKey :=
  if s.isArr t then RKey.length else RKey.iter

/-- Resolution phase of `trigger` (effect.ts): `none` when the target was
never tracked; otherwise the pair (plain effects, computed runners) built
from: every registered Set on CLEAR; else the Set of the exact key when a
key was supplied, plus the Set of the iteration key on ADD and DELETE. -/
def resolvedRunners (t : Target) (ty : OpType) (key : RKey) (s : Sys) :
    Option (List EffectId × List EffectId) :=
  if s.tracked t = false then none
  else
    some
      (if ty = OpType.clear then
        (s.keysOf t).foldl (fun acc k => addRunners s acc (s.depSet t k)) ([], [])
      else
        let acc :=
          if key = RKey.undef then ([], [])
          else addRunners s ([], []) (s.depSet t key)
        if ty = OpType.add ∨ ty = OpType.delete then
          addRunners s acc (s.depSet t (iterationKey t s))
        else acc)

/-- Invocation order of `trigger`: the computed runners Set is iterated
first, then the plain effects Set (`computedRunners.forEach(run);
effects.forEach(run)`).  Empty when the target was never tracked. -/
def triggerSeq (t : Target) (ty : OpType) (key : RKey) (s : Sys) : List EffectId :=
  match resolvedRunners t ty key s with
  | none => []
  | some p => p.2 ++ p.1

/-- Execution phase of `trigger`: fold the dispatch (`scheduleRun`, which
calls the scheduler of the effect when set, else the effect itself; here a
parameter, instantiated per scenario) over the invocation order. -/
def triggerExec (t : Target) (ty : OpType) (key : RKey)
    (disp : EffectId → Sys → Sys) (s : Sys) : Sys :=
  (triggerSeq t ty key s).foldl (fun s' e => disp e s') s

/-- Single step of `trackChildRun` (computed module): forward one dependency
Set of the child runner to the parent effect when the parent is not already
a member. -/
def childStep (parent : EffectId) (s : Sys) (tk : DepKey) : Sys :=
  if parent ∈ s.depSet tk.1 tk.2 then s
  else
    { s with
      depSet := upd2 s.depSet tk.1 tk.2 (s.depSet tk.1 tk.2 ++ [parent]),
      depsOf := upd1 s.depsOf parent (s.depsOf parent ++ [tk]) }

/-- Translation of `trackChildRun` (computed module): when an effect is on
top of the stack, forward every dependency Set of the child runner to it. -/
def trackChildRun (child : EffectId) (s : Sys) : Sys :=
  match s.stack.getLast? with
  | none => s
  | some parent => (s.depsOf child).foldl (childStep parent) s

/-- Invocation `runner()` of the wrapped computed effect with a getter that
cannot throw; the value is `none` when `run` fell through (self-recursive
call) and the getter result otherwise. -/
def runnerCall (rid : EffectId) (g : Sys → Sys × Int) (s : Sys) :
    Sys × Option Int :=
  ((runEff rid (fun s' => ((g s').1, Except.ok (g s').2)) s).1,
   match (runEff rid (fun s' => ((g s').1, Except.ok (g s').2)) s).2 with
   | Except.ok v => v
   | Except.error _ => none)

/-- State after the dirty branch of the computed getter: `value = runner();
dirty = false` (in that order, so the flag ends false regardless of what the
getter did). -/
def afterRecompute (rid : EffectId) (g : Sys → Sys × Int) (s : Sys) : Sys :=
  { (runnerCall rid g s).1 with cval := (runnerCall rid g s).2, dirty := false }

/-- Translation of the `get value()` accessor of `computed` (computed
module): recompute when dirty, then always forward the runner dependencies
to the parent effect via `trackChildRun`, and return the cached value. -/
def computedRead (rid : EffectId) (g : Sys → Sys × Int) (s : Sys) :
    Sys × Option Int :=
  if s.dirty then
    (trackChildRun rid (afterRecompute rid g s), (afterRecompute rid g s).cval)
  else (trackChildRun rid s, s.cval)

/-- Scheduler installed on the wrapped computed effect: `() => { dirty =
true }`. -/
def schedFlip (s : Sys) : Sys :=
  { s with dirty := true }

/-- Translation of the read-only setter of `computed` (computed module):
the source is an empty arrow function whose body holds only the comment
`TODO warn attempting to mutate readonly computed value`; it mutates nothing
and emits no warning.  The second component counts warnings reported. -/
def readonlySetter (_v : Int) (s : Sys) : Sys × Nat :=
  (s, 0)

/-- Agreement invariant between the Dependency Store and the per-effect
dependency lists: an effect is a member of the subscriber Set of (t, k)
exactly when (t, k) occurs in its deps list. -/
def Inv (s : Sys) : Prop :=
  ∀ e t k, e ∈ s.depSet t k ↔ (t, k) ∈ s.depsOf e

/-- Partition property of a (plain, computed) runner pair: every member of
the computed side carries the derived-value marker, every member of the
plain side does not. -/
def PartOK (s : Sys) (p : List EffectId × List EffectId) : Prop :=
  (∀ x, x ∈ p.2 → s.isComputed x = true) ∧
    (∀ x, x ∈ p.1 → s.isComputed x = false)

/-
Concrete scenario from the spec ordering property: state S is target 0 with
key `k 0` (its `count` field), the derived value D is effect 0 (computed,
scheduler flips the dirty flag), the plain effect A is effect 1 and reads
D.value, doubling the count.  The read/write wiring through the proxy
handlers (track on get, trigger on set) is modelled from the spec: the
interception layer issues notifyRead on every read and notifyWrite on every
write.
-/

/-- Key of the scalar field read by the derived value. -/
def keyN : RKey := RKey.k 0

/-- Key of the scratch slot where the plain effect stores what it saw. -/
def keySeen : RKey := RKey.k 1

/-- Getter of the derived value D: reads target 0 at `keyN` through a
tracked read and returns twice the stored value. -/
def gD (s : Sys) : Sys × Int :=
  (trackPrim 0 OpType.get keyN s, (trackPrim 0 OpType.get keyN s).dataOf 0 keyN * 2)

/-- Computation of the plain effect A: reads D.value (effect 0 is the
wrapped runner of D) and records the value it observed into a scratch slot
of a non-tracked target. -/
def aBody (s : Sys) : Sys × Except Unit Int :=
  ({ (computedRead 0 gD s).1 with
      dataOf := upd2 (computedRead 0 gD s).1.dataOf 1 keySeen
        (((computedRead 0 gD s).2).getD 0) },
   Except.ok (((computedRead 0 gD s).2).getD 0))

/-- Dispatch used by the scenario trigger: effect 0 carries the computed
scheduler (flip dirty), effect 1 has no scheduler and is invoked directly,
exactly the two branches of `scheduleRun`. -/
def dispS : EffectId → Sys → Sys :=
  fun e s => if e = 0 then schedFlip s else if e = 1 then (runEff 1 aBody s).1 else s

/-- Initial scenario state: both effects active, effect 0 marked computed,
no subscriptions yet, count of target 0 is 1, the derived value starts
dirty with no cached value. -/
def s0C2 : Sys :=
  { active := fun _ => true
    isComputed := fun e => e == 0
    depsOf := fun _ => []
    tracked := fun _ => false
    keysOf := fun _ => []
    depSet := fun _ _ => []
    isArr := fun _ => false
    stack := []
    shouldTrack := true
    dataOf := fun t k => if t = 0 ∧ k = keyN then 1 else 0
    dirty := true
    cval := none }

/-- Scenario state after the initial run of the plain effect A (the
non-lazy creation run): A read D, D computed from count = 1, and both
effects subscribed to (0, keyN). -/
def sInitC2 : Sys :=
  (runEff 1 aBody s0C2).1

/-- Scenario state after the backing store write `count = 5`, just before
the trigger fires. -/
def sW5 : Sys :=
  { sInitC2 with dataOf := upd2 sInitC2.dataOf 0 keyN 5 }

/-- Scenario state after the full write: backing store updated, then
`trigger(0, SET, keyN)` executed with the scenario dispatch. -/
def sFinC2 : Sys :=
  triggerExec 0 OpType.set keyN dispS sW5

/-
Model of `reactive.ts`.  Objects are identified by natural numbers; a Proxy
allocation draws a fresh identity.  The four WeakMaps are association lists
(insertion at the head), the WeakSets are lists, `objs` records which
identities are objects (the `isObject` check), `obsOk` records which
identities pass the type-string whitelist of `canObserve` and are neither
`_isVue` nor `_isVNode`.  The choice between base and collection proxy
handlers affects interception behavior only, not identity, and is not
recorded.
-/

/-- State of the `reactive.ts` module. -/
structure RSt where
  rawToReactive : List (Nat × Nat)
  reactiveToRaw : List (Nat × Nat)
  rawToReadonly : List (Nat × Nat)
  readonlyToRaw : List (Nat × Nat)
  readonlyValues : List Nat
  nonReactive : List Nat
  objs : List Nat
  obsOk : List Nat
  trackedR : List Nat
  nextId : Nat
deriving DecidableEq, Repr

/-- WeakMap lookup over the association-list model. -/
def lookupR (m : List (Nat × Nat)) (a : Nat) : Option Nat :=
  match m with
  | [] => none
  | (x, y) :: rest => if a = x then some y else lookupR rest a

/-- Translation of `canObserve` (reactive.ts): not a Vue instance or VNode,
type string in the whitelist, and not marked non-reactive. -/
def canObserve (v : Nat) (s : RSt) : Bool :=
  decide (v ∈ s.obsOk) && !(decide (v ∈ s.nonReactive))

/-- Translation of `createReactiveObject` (reactive.ts), parametrized by
which map pair is threaded (`ro = true` for the readonly pair): return
non-objects unchanged; return the cached proxy when one exists; return the
target itself when it is already a proxy of this pair; return targets that
cannot be observed; otherwise allocate a fresh Proxy identity, record both
map directions, mark the fresh identity as an object, and create the
target's (empty) entry in `targetMap` when absent. -/
def createReactiveObject (ro : Bool) (t : Nat) (s : RSt) : Nat × RSt :=
  if ¬ (t ∈ s.objs) then (t, s)
  else if (lookupR (if ro then s.rawToReadonly else s.rawToReactive) t).isSome then
    ((lookupR (if ro then s.rawToReadonly else s.rawToReactive) t).getD t, s)
  else if (lookupR (if ro then s.readonlyToRaw else s.reactiveToRaw) t).isSome then (t, s)
  else if ¬ canObserve t s then (t, s)
  else
        let p := s.nextId
        let s1 :=
          if ro then
            { s with
              rawToReadonly := (t, p) :: s.rawToReadonly,
              readonlyToRaw := (p, t) :: s.readonlyToRaw,
              objs := p :: s.objs,
              trackedR := if t ∈ s.trackedR then s.trackedR else t :: s.trackedR,
              nextId := s.nextId + 1 }
          else
            { s with
              rawToReactive := (t, p) :: s.rawToReactive,
              reactiveToRaw := (p, t) :: s.reactiveToRaw,
              objs := p :: s.objs,
              trackedR := if t ∈ s.trackedR then s.trackedR else t :: s.trackedR,
              nextId := s.nextId + 1 }
        (p, s1)

/-- Translation of `readonly` (reactive.ts): unwrap a mutable observable to
its raw original, then build through the readonly map pair. -/
def readonlyF (t : Nat) (s : RSt) : Nat × RSt :=
  createReactiveObject true ((lookupR s.reactiveToRaw t).getD t) s

/-- Translation of `reactive` (reactive.ts): a readonly proxy is returned
unchanged; a target marked readonly is routed to `readonly`; otherwise build
through the mutable map pair. -/
def reactiveF (t : Nat) (s : RSt) : Nat × RSt :=
  if (lookupR s.readonlyToRaw t).isSome then (t, s)
  else if t ∈ s.readonlyValues then readonlyF t s
  else createReactiveObject false t s

/-- Freshness of the allocation counter: every identity stored anywhere in
the module state is below `nextId`. -/
def freshR (s : RSt) : Bool :=
  s.rawToReactive.all (fun p => p.1 < s.nextId && p.2 < s.nextId) &&
  s.reactiveToRaw.all (fun p => p.1 < s.nextId && p.2 < s.nextId) &&
  s.rawToReadonly.all (fun p => p.1 < s.nextId && p.2 < s.nextId) &&
  s.readonlyToRaw.all (fun p => p.1 < s.nextId && p.2 < s.nextId) &&
  s.readonlyValues.all (fun v => v < s.nextId) &&
  s.nonReactive.all (fun v => v < s.nextId) &&
  s.objs.all (fun v => v < s.nextId) &&
  s.obsOk.all (fun v => v < s.nextId)

/-
Concrete states and computations used by witnesses and counterexamples.
-/

/-- Computation that disables tracking and returns 7; used to exhibit that a
self-recursive `run` neither invokes the computation nor returns its
result. -/
def fnC1 : Sys → Sys × Except Unit Int :=
  fun s => ({ s with shouldTrack := false }, Except.ok 7)

/-- Computation that throws. -/
def fnThrow : Sys → Sys × Except Unit Int :=
  fun s => (s, Except.error ())

/-- Scenario initial state with effect 0 already on the stack. -/
def sStack0 : Sys :=
  { s0C2 with stack := [0] }

/-- Small concrete state with two subscribed effects: effects 0 (computed)
and 1 (plain) are both members of the subscriber Set of (0, keyN), and their
deps lists agree with the store. -/
def sWit : Sys :=
  { active := fun _ => true
    isComputed := fun e => e == 0
    depsOf := fun e => if e = 0 ∨ e = 1 then [(0, keyN)] else []
    tracked := fun t => t == 0
    keysOf := fun t => if t = 0 then [keyN] else []
    depSet := fun t k => if t = 0 ∧ k = keyN then [0, 1] else []
    isArr := fun _ => false
    stack := []
    shouldTrack := true
    dataOf := fun _ _ => 0
    dirty := false
    cval := some 2 }

/-- The same state with effect 0 running (on top of the stack). -/
def sWitS : Sys :=
  { sWit with stack := [0] }

/-- The same state with effect 0 inactive. -/
def sWitI : Sys :=
  { sWit with active := fun e => e != 0 }

/-- The same state with tracking paused. -/
def sWitP : Sys :=
  { sWit with shouldTrack := false }

/-- Concrete initial state of the `reactive` module: one plain observable
object with identity 0, nothing cached yet. -/
def r0 : RSt :=
  { rawToReactive := []
    reactiveToRaw := []
    rawToReadonly := []
    readonlyToRaw := []
    readonlyValues := []
    nonReactive := []
    objs := [0]
    obsOk := [0]
    trackedR := []
    nextId := 1 }

/-
Helper lemmas.
-/

theorem mem_insertIdem {l : List EffectId} {x e : EffectId} :
    x ∈ insertIdem l e ↔ x ∈ l ∨ x = e := by
  unfold insertIdem
  by_cases h : e ∈ l
  · simp only [h, if_true]
    exact ⟨Or.inl, fun hx => hx.elim id (fun hx' => hx' ▸ h)⟩
  · simp [h]

theorem addRunners_mem (s : Sys) (dep : List EffectId) :
    ∀ (acc : List EffectId × List EffectId) (x : EffectId),
      (x ∈ (addRunners s acc dep).1 ↔
        x ∈ acc.1 ∨ (x ∈ dep ∧ s.isComputed x = false)) ∧
      (x ∈ (addRunners s acc dep).2 ↔
        x ∈ acc.2 ∨ (x ∈ dep ∧ s.isComputed x = true)) := by
  induction dep with
  | nil => intro acc x; simp [addRunners]
  | cons d ds ih =>
    intro acc x
    have hstep : addRunners s acc (d :: ds) =
        addRunners s
          (if s.isComputed d then (acc.1, insertIdem acc.2 d)
           else (insertIdem acc.1 d, acc.2)) ds := by
      by_cases hc : s.isComputed d <;> simp [addRunners, hc]
    rw [hstep]
    by_cases hc : s.isComputed d
    · simp only [hc, if_true]
      rcases ih (acc.1, insertIdem acc.2 d) x with ⟨ihf, ihs⟩
      constructor
      · rw [ihf]
        constructor
        · rintro (hx | ⟨hxs, hxc⟩)
          · exact Or.inl hx
          · exact Or.inr ⟨List.mem_cons_of_mem _ hxs, hxc⟩
        · rintro (hx | ⟨hxd, hxc⟩)
          · exact Or.inl hx
          · rcases List.mem_cons.mp hxd with rfl | hxs
            · rw [hc] at hxc; cases hxc
            · exact Or.inr ⟨hxs, hxc⟩
      · rw [ihs, mem_insertIdem]
        constructor
        · rintro ((hx | rfl) | ⟨hxs, hxc⟩)
          · exact Or.inl hx
          · exact Or.inr ⟨List.mem_cons_self _ _, hc⟩
          · exact Or.inr ⟨List.mem_cons_of_mem _ hxs, hxc⟩
        · rintro (hx | ⟨hxd, hxc⟩)
          · exact Or.inl (Or.inl hx)
          · rcases List.mem_cons.mp hxd with rfl | hxs
            · exact Or.inl (Or.inr rfl)
            · exact Or.inr ⟨hxs, hxc⟩
    · have hcd : s.isComputed d = false := by
        cases hcd' : s.isComputed d
        · rfl
        · exact absurd hcd' hc
      simp only [hcd, Bool.false_eq_true, if_false]
      rcases ih (insertIdem acc.1 d, acc.2) x with ⟨ihf, ihs⟩
      constructor
      · rw [ihf, mem_insertIdem]
        constructor
        · rintro ((hx | rfl) | ⟨hxs, hxc⟩)
          · exact Or.inl hx
          · exact Or.inr ⟨List.mem_cons_self _ _, hcd⟩
          · exact Or.inr ⟨List.mem_cons_of_mem _ hxs, hxc⟩
        · rintro (hx | ⟨hxd, hxc⟩)
          · exact Or.inl (Or.inl hx)
          · rcases List.mem_cons.mp hxd with rfl | hxs
            · exact Or.inl (Or.inr rfl)
            · exact Or.inr ⟨hxs, hxc⟩
      · rw [ihs]
        constructor
        · rintro (hx | ⟨hxs, hxc⟩)
          · exact Or.inl hx
          · exact Or.inr ⟨List.mem_cons_of_mem _ hxs, hxc⟩
        · rintro (hx | ⟨hxd, hxc⟩)
          · exact Or.inl hx
          · rcases List.mem_cons.mp hxd with rfl | hxs
            · rw [hcd] at hxc; cases hxc
            · exact Or.inr ⟨hxs, hxc⟩

theorem clearFold_mem (s : Sys) (t : Target) (ks : List RKey) :
    ∀ (acc : List EffectId × List EffectId) (x : EffectId),
      (x ∈ (ks.foldl (fun acc k => addRunners s acc (s.depSet t k)) acc).1 ↔
        x ∈ acc.1 ∨
          ((∃ k, k ∈ ks ∧ x ∈ s.depSet t k) ∧ s.isComputed x = false)) ∧
      (x ∈ (ks.foldl (fun acc k => addRunners s acc (s.depSet t k)) acc).2 ↔
        x ∈ acc.2 ∨
          ((∃ k, k ∈ ks ∧ x ∈ s.depSet t k) ∧ s.isComputed x = true)) := by
  induction ks with
  | nil => intro acc x; simp
  | cons k ks ih =>
    intro acc x
    simp only [List.foldl_cons]
    rcases ih (addRunners s acc (s.depSet t k)) x with ⟨ihf, ihs⟩
    rcases addRunners_mem s (s.depSet t k) acc x with ⟨arf, ars⟩
    constructor
    · rw [ihf, arf]
      constructor
      · rintro ((hx | ⟨hk, hc⟩) | ⟨⟨k', hk', hx'⟩, hc⟩)
        · exact Or.inl hx
        · exact Or.inr ⟨⟨k, List.mem_cons_self _ _, hk⟩, hc⟩
        · exact Or.inr ⟨⟨k', List.mem_cons_of_mem _ hk', hx'⟩, hc⟩
      · rintro (hx | ⟨⟨k', hk', hx'⟩, hc⟩)
        · exact Or.inl (Or.inl hx)
        · rcases List.mem_cons.mp hk' with rfl | hk''
          · exact Or.inl (Or.inr ⟨hx', hc⟩)
          · exact Or.inr ⟨⟨k', hk'', hx'⟩, hc⟩
    · rw [ihs, ars]
      constructor
      · rintro ((hx | ⟨hk, hc⟩) | ⟨⟨k', hk', hx'⟩, hc⟩)
        · exact Or.inl hx
        · exact Or.inr ⟨⟨k, List.mem_cons_self _ _, hk⟩, hc⟩
        · exact Or.inr ⟨⟨k', List.mem_cons_of_mem _ hk', hx'⟩, hc⟩
      · rintro (hx | ⟨⟨k', hk', hx'⟩, hc⟩)
        · exact Or.inl (Or.inl hx)
        · rcases List.mem_cons.mp hk' with rfl | hk''
          · exact Or.inl (Or.inr ⟨hx', hc⟩)
          · exact Or.inr ⟨⟨k', hk'', hx'⟩, hc⟩

/-- Membership of an effect in the resolved subscriber pair of one trigger,
independent of the computed/plain partition side. -/
def ResolveCond (t : Target) (ty : OpType) (key : RKey) (s : Sys)
    (x : EffectId) : Prop :=
  if ty = OpType.clear then ∃ k, k ∈ s.keysOf t ∧ x ∈ s.depSet t k
  else
    (key ≠ RKey.undef ∧ x ∈ s.depSet t key) ∨
      ((ty = OpType.add ∨ ty = OpType.delete) ∧ x ∈ s.depSet t (iterationKey t s))

theorem mem_triggerSeq {t : Target} {ty : OpType} {key : RKey} {s : Sys}
    {x : EffectId} :
    x ∈ triggerSeq t ty key s ↔ s.tracked t = true ∧ ResolveCond t ty key s x := by
  unfold triggerSeq resolvedRunners ResolveCond
  by_cases htr : s.tracked t = false
  · simp [htr]
  · have htr' : s.tracked t = true := by
      cases h : s.tracked t
      · exact absurd h htr
      · rfl
    simp only [htr', Bool.true_eq_false, if_false, htr, true_and]
    by_cases hcl : ty = OpType.clear
    · simp only [hcl, if_true]
      rcases clearFold_mem s t (s.keysOf t) ([], []) x with ⟨cf, cs⟩
      rw [List.mem_append, cs, cf]
      simp only [List.not_mem_nil, false_or]
      constructor
      · rintro (⟨hex, _⟩ | ⟨hex, _⟩) <;> exact hex
      · intro hex
        cases hcx : s.isComputed x
        · exact Or.inr ⟨hex, rfl⟩
        · exact Or.inl ⟨hex, rfl⟩
    · simp only [if_neg hcl]
      by_cases hu : key = RKey.undef
      · rw [if_pos hu]
        by_cases had : ty = OpType.add ∨ ty = OpType.delete
        · rw [if_pos had]
          rcases addRunners_mem s (s.depSet t (iterationKey t s)) ([], []) x with ⟨arf, ars⟩
          rw [List.mem_append, ars, arf]
          simp only [List.not_mem_nil, false_or]
          constructor
          · rintro (⟨hx, _⟩ | ⟨hx, _⟩)
            · exact Or.inr ⟨had, hx⟩
            · exact Or.inr ⟨had, hx⟩
          · rintro (⟨hne, _⟩ | ⟨_, hx⟩)
            · exact absurd hu hne
            · cases hcx : s.isComputed x
              · exact Or.inr ⟨hx, rfl⟩
              · exact Or.inl ⟨hx, rfl⟩
        · rw [if_neg had]
          simp only [List.append_nil, List.not_mem_nil, false_iff]
          rintro (⟨hne, _⟩ | ⟨hads, _⟩)
          · exact hne hu
          · exact had hads
      · rw [if_neg hu]
        by_cases had : ty = OpType.add ∨ ty = OpType.delete
        · rw [if_pos had]
          rcases addRunners_mem s (s.depSet t (iterationKey t s))
            (addRunners s ([], []) (s.depSet t key)) x with ⟨arf, ars⟩
          rcases addRunners_mem s (s.depSet t key) ([], []) x with ⟨brf, brs⟩
          rw [List.mem_append, ars, arf, brs, brf]
          simp only [List.not_mem_nil, false_or]
          constructor
          · rintro ((⟨hk, _⟩ | ⟨hi, _⟩) | (⟨hk, _⟩ | ⟨hi, _⟩))
            · exact Or.inl ⟨hu, hk⟩
            · exact Or.inr ⟨had, hi⟩
            · exact Or.inl ⟨hu, hk⟩
            · exact Or.inr ⟨had, hi⟩
          · rintro (⟨_, hk⟩ | ⟨_, hi⟩)
            · cases hcx : s.isComputed x
              · exact Or.inr (Or.inl ⟨hk, rfl⟩)
              · exact Or.inl (Or.inl ⟨hk, rfl⟩)
            · cases hcx : s.isComputed x
              · exact Or.inr (Or.inr ⟨hi, rfl⟩)
              · exact Or.inl (Or.inr ⟨hi, rfl⟩)
        · rw [if_neg had]
          rcases addRunners_mem s (s.depSet t key) ([], []) x with ⟨brf, brs⟩
          rw [List.mem_append, brs, brf]
          simp only [List.not_mem_nil, false_or]
          constructor
          · rintro (⟨hk, _⟩ | ⟨hk, _⟩) <;> exact Or.inl ⟨hu, hk⟩
          · rintro (⟨_, hk⟩ | ⟨hads, _⟩)
            · cases hcx : s.isComputed x
              · exact Or.inr ⟨hk, rfl⟩
              · exact Or.inl ⟨hk, rfl⟩
            · exact absurd hads had

theorem inv_cleanup {e : EffectId} {s : Sys} (h : Inv s) : Inv (cleanup e s) := by
  unfold cleanup
  by_cases hemp : (s.depsOf e).isEmpty = true
  · rwa [if_pos hemp]
  · rw [if_neg hemp]
    intro e' t k
    show (e' ∈ if (t, k) ∈ s.depsOf e then (s.depSet t k).filter (fun x => x != e)
          else s.depSet t k) ↔ (t, k) ∈ upd1 s.depsOf e [] e'
    by_cases he' : e' = e
    · subst he'
      simp only [upd1, eq_self_iff_true, if_true, List.not_mem_nil, iff_false]
      by_cases hd : (t, k) ∈ s.depsOf e'
      · rw [if_pos hd]
        intro hmem
        rcases List.mem_filter.mp hmem with ⟨_, hne⟩
        exact absurd rfl (bne_iff_ne.mp hne)
      · rw [if_neg hd]
        intro hmem
        exact hd ((h e' t k).mp hmem)
    · have hup : upd1 s.depsOf e [] e' = s.depsOf e' := by
        simp [upd1, he']
      rw [hup]
      by_cases hd : (t, k) ∈ s.depsOf e
      · rw [if_pos hd]
        constructor
        · intro hmem
          exact (h e' t k).mp (List.mem_filter.mp hmem).1
        · intro hmem
          exact List.mem_filter.mpr ⟨(h e' t k).mpr hmem, bne_iff_ne.mpr he'⟩
      · rw [if_neg hd]
        exact h e' t k

theorem inv_ensureMap {t : Target} {s : Sys} (h : Inv s) : Inv (ensureMap t s) := by
  unfold ensureMap
  split
  · exact h
  · exact h

theorem inv_ensureDep {t : Target} {k : RKey} {s : Sys} (h : Inv s) :
    Inv (ensureDep t k s) := by
  unfold ensureDep
  split
  · exact h
  · exact h

theorem inv_depAdd {e : EffectId} {t : Target} {k : RKey} {s : Sys} (h : Inv s) :
    Inv (depAdd e t k s) := by
  unfold depAdd
  by_cases hm : e ∈ s.depSet t k
  · rwa [if_pos hm]
  · rw [if_neg hm]
    intro e' t' k'
    show e' ∈ upd2 s.depSet t k (s.depSet t k ++ [e]) t' k' ↔
      (t', k') ∈ upd1 s.depsOf e (s.depsOf e ++ [(t, k)]) e'
    unfold upd1 upd2
    by_cases htk : t' = t ∧ k' = k
    · rw [if_pos htk]
      obtain ⟨rfl, rfl⟩ := htk
      by_cases he' : e' = e
      · subst he'
        rw [if_pos rfl]
        simp
      · rw [if_neg he']
        simp only [List.mem_append, List.mem_singleton]
        constructor
        · rintro (hx | rfl)
          · exact (h e' t' k').mp hx
          · exact absurd rfl he'
        · intro hx
          exact Or.inl ((h e' t' k').mpr hx)
    · rw [if_neg htk]
      by_cases he' : e' = e
      · subst he'
        rw [if_pos rfl]
        simp only [List.mem_append, List.mem_singleton]
        constructor
        · intro hx
          exact Or.inl ((h e' t' k').mp hx)
        · rintro (hx | heq)
          · exact (h e' t' k').mpr hx
          · rcases Prod.mk.injEq .. ▸ heq with ⟨h1, h2⟩
            exact absurd ⟨h1, h2⟩ htk
      · rw [if_neg he']
        exact h e' t' k'

theorem inv_trackPrim (t : Target) (ty : OpType) (key : RKey) {s : Sys}
    (h : Inv s) : Inv (trackPrim t ty key s) := by
  unfold trackPrim
  split
  · exact h
  · split
    · exact h
    · exact inv_depAdd (inv_ensureDep (inv_ensureMap h))

theorem inv_stopEff {e : EffectId} {s : Sys} (h : Inv s) : Inv (stopEff e s) := by
  unfold stopEff
  split
  · exact inv_cleanup h
  · exact h

theorem inv_childStep {parent : EffectId} {s : Sys} {tk : DepKey} (h : Inv s) :
    Inv (childStep parent s tk) := by
  unfold childStep
  by_cases hm : parent ∈ s.depSet tk.1 tk.2
  · rwa [if_pos hm]
  · rw [if_neg hm]
    have := @inv_depAdd parent tk.1 tk.2 s h
    unfold depAdd at this
    rwa [if_neg hm] at this

theorem inv_foldl_childStep {parent : EffectId} (l : List DepKey) :
    ∀ {s : Sys}, Inv s → Inv (l.foldl (childStep parent) s) := by
  induction l with
  | nil => intro s h; exact h
  | cons tk l ih =>
    intro s h
    exact ih (inv_childStep h)

theorem inv_trackChildRun {child : EffectId} {s : Sys} (h : Inv s) :
    Inv (trackChildRun child s) := by
  unfold trackChildRun
  cases s.stack.getLast? with
  | none => exact h
  | some parent => exact inv_foldl_childStep _ h

theorem inv_popStack {s : Sys} (h : Inv s) : Inv s.popStack := h

theorem inv_pushedState {e : EffectId} {s : Sys} (h : Inv s) :
    Inv (pushedState e s) := inv_cleanup h

theorem inv_runEff {e : EffectId} {fn : Sys → Sys × Except Unit Int} {s : Sys}
    (hfn : ∀ s', Inv s' → Inv (fn s').1) (h : Inv s) : Inv (runEff e fn s).1 := by
  unfold runEff
  split
  · exact hfn s h
  · split
    · exact h
    · exact inv_popStack (hfn _ (inv_pushedState h))

theorem inv_runnerCall {rid : EffectId} {g : Sys → Sys × Int} {s : Sys}
    (hg : ∀ s', Inv s' → Inv (g s').1) (h : Inv s) : Inv (runnerCall rid g s).1 := by
  unfold runnerCall
  exact inv_runEff (fun s' h' => hg s' h') h

theorem inv_afterRecompute {rid : EffectId} {g : Sys → Sys × Int} {s : Sys}
    (hg : ∀ s', Inv s' → Inv (g s').1) (h : Inv s) :
    Inv (afterRecompute rid g s) := by
  unfold afterRecompute
  exact inv_runnerCall hg h

theorem inv_computedRead {rid : EffectId} {g : Sys → Sys × Int} {s : Sys}
    (hg : ∀ s', Inv s' → Inv (g s').1) (h : Inv s) :
    Inv (computedRead rid g s).1 := by
  unfold computedRead
  split
  · exact inv_trackChildRun (inv_afterRecompute hg h)
  · exact inv_trackChildRun h

theorem inv_foldl_disp {disp : EffectId → Sys → Sys}
    (hd : ∀ e s', Inv s' → Inv (disp e s')) (l : List EffectId) :
    ∀ {s : Sys}, Inv s → Inv (l.foldl (fun s' e => disp e s') s) := by
  induction l with
  | nil => intro s h; exact h
  | cons e l ih =>
    intro s h
    exact ih (hd e s h)

theorem inv_triggerExec {t : Target} {ty : OpType} {key : RKey}
    {disp : EffectId → Sys → Sys} {s : Sys}
    (hd : ∀ e s', Inv s' → Inv (disp e s')) (h : Inv s) :
    Inv (triggerExec t ty key disp s) := by
  unfold triggerExec
  exact inv_foldl_disp hd _ h

theorem cleanup_stack (e : EffectId) (s : Sys) : (cleanup e s).stack = s.stack := by
  unfold cleanup
  split <;> rfl

theorem childStep_dirty (parent : EffectId) (s : Sys) (tk : DepKey) :
    (childStep parent s tk).dirty = s.dirty := by
  unfold childStep
  split <;> rfl

theorem childStep_cval (parent : EffectId) (s : Sys) (tk : DepKey) :
    (childStep parent s tk).cval = s.cval := by
  unfold childStep
  split <;> rfl

theorem foldl_childStep_dirty (parent : EffectId) (l : List DepKey) :
    ∀ s : Sys, (l.foldl (childStep parent) s).dirty = s.dirty := by
  induction l with
  | nil => intro s; rfl
  | cons tk l ih =>
    intro s
    rw [List.foldl_cons, ih, childStep_dirty]

theorem foldl_childStep_cval (parent : EffectId) (l : List DepKey) :
    ∀ s : Sys, (l.foldl (childStep parent) s).cval = s.cval := by
  induction l with
  | nil => intro s; rfl
  | cons tk l ih =>
    intro s
    rw [List.foldl_cons, ih, childStep_cval]

theorem trackChildRun_dirty (child : EffectId) (s : Sys) :
    (trackChildRun child s).dirty = s.dirty := by
  unfold trackChildRun
  cases s.stack.getLast? with
  | none => rfl
  | some parent => exact foldl_childStep_dirty parent _ s

theorem trackChildRun_cval (child : EffectId) (s : Sys) :
    (trackChildRun child s).cval = s.cval := by
  unfold trackChildRun
  cases s.stack.getLast? with
  | none => rfl
  | some parent => exact foldl_childStep_cval parent _ s

theorem pushedState_stack (e : EffectId) (s : Sys) :
    (pushedState e s).stack = s.stack ++ [e] := by
  show (cleanup e s).stack ++ [e] = s.stack ++ [e]
  rw [cleanup_stack]

theorem cleanup_not_mem {e : EffectId} {s : Sys} (h : Inv s) :
    ∀ t k, e ∉ (cleanup e s).depSet t k := by
  intro t k hmem
  unfold cleanup at hmem
  by_cases hemp : (s.depsOf e).isEmpty = true
  · rw [if_pos hemp] at hmem
    have hd := (h e t k).mp hmem
    rw [List.isEmpty_iff] at hemp
    rw [hemp] at hd
    cases hd
  · rw [if_neg hemp] at hmem
    have hmem' : e ∈ (if (t, k) ∈ s.depsOf e then
        (s.depSet t k).filter (fun x => x != e) else s.depSet t k) := hmem
    by_cases hd : (t, k) ∈ s.depsOf e
    · rw [if_pos hd] at hmem'
      exact absurd rfl (bne_iff_ne.mp (List.mem_filter.mp hmem').2)
    · rw [if_neg hd] at hmem'
      exact hd ((h e t k).mp hmem')

theorem stopEff_not_mem {e : EffectId} {s : Sys} (hA : s.active e = true)
    (h : Inv s) : ∀ t k, e ∉ (stopEff e s).depSet t k := by
  intro t k
  unfold stopEff
  rw [if_pos hA]
  exact cleanup_not_mem h t k

theorem stopEff_fields {e : EffectId} {s : Sys} :
    (stopEff e s).tracked = s.tracked ∧ (stopEff e s).keysOf = s.keysOf ∧
      (stopEff e s).isArr = s.isArr := by
  unfold stopEff cleanup
  split <;> [skip; exact ⟨rfl, rfl, rfl⟩]
  split <;> exact ⟨rfl, rfl, rfl⟩

theorem inv_sWit : Inv sWit := by
  intro e t k
  show (e ∈ if t = 0 ∧ k = keyN then [0, 1] else []) ↔
    ((t, k) ∈ if e = 0 ∨ e = 1 then [(0, keyN)] else [])
  by_cases htk : t = 0 ∧ k = keyN
  · obtain ⟨rfl, rfl⟩ := htk
    rw [if_pos ⟨rfl, rfl⟩]
    by_cases he : e = 0 ∨ e = 1
    · rw [if_pos he]
      rcases he with rfl | rfl <;> simp
    · rw [if_neg he]
      push_neg at he
      simp [he.1, he.2]
  · rw [if_neg htk]
    by_cases he : e = 0 ∨ e = 1
    · rw [if_pos he]
      simp only [List.not_mem_nil, false_iff, List.mem_singleton]
      intro heq
      rcases Prod.mk.injEq .. ▸ heq with ⟨h1, h2⟩
      exact htk ⟨h1, h2⟩
    · rw [if_neg he]
      simp

/-
Claim theorems.
-/

/-- C1, counterexample to the claim as stated: with effect 0 active and
already on the Tracking Context stack, `run` returns `undefined` (`none`),
not the result of the computation (which would be 7), and the computation is
not invoked at all (it would have flipped `shouldTrack` to `false`; the
returned state still has it `true`). -/
theorem run_self_recursive_cex :
    (runEff 0 fnC1 sStack0).2 = Except.ok none ∧
    (fnC1 sStack0).2 = Except.ok 7 ∧
    (Except.ok (none : Option Int) : Except Unit (Option Int)) ≠
      Except.ok (some 7) ∧
    (runEff 0 fnC1 sStack0).1.shouldTrack = true ∧
    (fnC1 sStack0).1.shouldTrack = false := by
  refine ⟨rfl, rfl, ?_, rfl, rfl⟩
  intro h
  cases h

/-- C1 (amended): for every active effect that is already on the Tracking
Context stack, `run` skips cleanup and also skips the computation: the state
is returned unchanged and the result is `undefined` (`none`). -/
theorem run_self_recursive_skips (e : EffectId)
    (fn : Sys → Sys × Except Unit Int) (s : Sys) (hA : s.active e = true)
    (hS : e ∈ s.stack) : runEff e fn s = (s, Except.ok none) := by
  unfold runEff
  rw [if_neg (by simp [hA]), if_pos hS]

/-- Witness for C1 at a concrete self-recursive state. -/
theorem run_self_recursive_skips_witness :
    runEff 0 fnC1 sStack0 = (sStack0, Except.ok none) :=
  run_self_recursive_skips 0 fnC1 sStack0 rfl (by decide)

/-- C6: the read-only derived-value setter is an empty function; the write
is silently swallowed (the whole state, hence the cached value, the dirty
flag and the dependency graph, is returned unchanged) and the number of
warnings it reports is 0 — the source carries only a TODO comment where the
claimed development-build warning would be, so no warning is reported. -/
theorem readonly_set_swallows_no_warning :
    ∀ (v : Int) (s : Sys), readonlySetter v s = (s, 0) :=
  fun _ _ => rfl

/-- C8: for a run of an active effect not already on the stack, the
computation receives the state with the effect pushed on top; provided the
computation leaves the stack as it received it, the stack after `run` is
identical to the stack before, on both exit paths — the result (including a
thrown failure) is exactly the computation's outcome propagated. -/
theorem run_stack_balanced (e : EffectId) (fn : Sys → Sys × Except Unit Int)
    (s : Sys) (hA : s.active e = true) (hS : e ∉ s.stack)
    (hfn : (fn (pushedState e s)).1.stack = (pushedState e s).stack) :
    (pushedState e s).stack = s.stack ++ [e] ∧
    (runEff e fn s).1.stack = s.stack ∧
    (runEff e fn s).2 = ((fn (pushedState e s)).2).map some := by
  refine ⟨pushedState_stack e s, ?_, ?_⟩
  · unfold runEff
    rw [if_neg (by simp [hA]), if_neg hS]
    show ((fn (pushedState e s)).1.popStack).stack = s.stack
    unfold Sys.popStack
    show ((fn (pushedState e s)).1.stack).dropLast = s.stack
    rw [hfn, pushedState_stack]
    exact List.dropLast_concat
  · unfold runEff
    rw [if_neg (by simp [hA]), if_neg hS]

/-- Witness for C8 at a concrete state with a throwing computation: the
stack is balanced and the failure propagates. -/
theorem run_stack_balanced_witness :
    (pushedState 0 s0C2).stack = s0C2.stack ++ [0] ∧
    (runEff 0 fnThrow s0C2).1.stack = s0C2.stack ∧
    (runEff 0 fnThrow s0C2).2 = ((fnThrow (pushedState 0 s0C2)).2).map some :=
  run_stack_balanced 0 fnThrow s0C2 rfl (by decide) rfl

/-- C9: while tracking is paused, `track` is the identity on the whole state
(regardless of the stack), and an effect that is a member of no subscriber
Set of a key is not invoked by a subsequent SET trigger on that key. -/
theorem paused_tracking_noop (t : Target) (ty : OpType) (key k : RKey)
    (s : Sys) (e : EffectId) :
    (s.shouldTrack = false → trackPrim t ty key s = s) ∧
    (e ∉ s.depSet t k → e ∉ triggerSeq t OpType.set k s) := by
  constructor
  · intro h
    unfold trackPrim
    rw [if_pos h]
  · intro hne hmem
    rcases mem_triggerSeq.mp hmem with ⟨_, hcond⟩
    unfold ResolveCond at hcond
    rw [if_neg (by decide : ¬ OpType.set = OpType.clear)] at hcond
    rcases hcond with ⟨_, hk⟩ | ⟨had, _⟩
    · exact hne hk
    · rcases had with h1 | h1 <;> exact absurd h1 (by decide)

/-- Witness for C9: paused tracking at a concrete state is the identity, and
the unsubscribed effect 5 is absent from a concrete trigger sequence. -/
theorem paused_tracking_noop_witness :
    trackPrim 0 OpType.get keyN sWitP = sWitP ∧
    5 ∉ triggerSeq 0 OpType.set keyN sWit :=
  ⟨(paused_tracking_noop 0 OpType.get keyN keyN sWitP 5).1 rfl,
   (paused_tracking_noop 0 OpType.set keyN keyN sWit 5).2 (by decide)⟩

/-- C3: exact resolution of `trigger` — a never-tracked target resolves to
nothing (no-op); on CLEAR the union of every registered subscriber Set of
the target is resolved; otherwise the Set of the exact key (when one was
supplied) and, exactly for ADD and DELETE, additionally the Set of the
iteration key, which is `length` for arrays and the reserved iterate key
otherwise. -/
theorem trigger_resolution_exact (t : Target) (ty : OpType) (key : RKey)
    (s : Sys) (e : EffectId) :
    (s.tracked t = false →
      resolvedRunners t ty key s = none ∧ triggerSeq t ty key s = []) ∧
    (s.tracked t = true → ty = OpType.clear →
      (e ∈ triggerSeq t ty key s ↔ ∃ k, k ∈ s.keysOf t ∧ e ∈ s.depSet t k)) ∧
    (s.tracked t = true → ty ≠ OpType.clear →
      (e ∈ triggerSeq t ty key s ↔
        (key ≠ RKey.undef ∧ e ∈ s.depSet t key) ∨
          ((ty = OpType.add ∨ ty = OpType.delete) ∧
            e ∈ s.depSet t (iterationKey t s)))) := by
  refine ⟨?_, ?_, ?_⟩
  · intro h
    constructor
    · unfold resolvedRunners
      rw [if_pos h]
    · unfold triggerSeq resolvedRunners
      rw [if_pos h]
  · intro htr hcl
    rw [mem_triggerSeq]
    unfold ResolveCond
    rw [if_pos hcl]
    simp [htr]
  · intro htr hcl
    rw [mem_triggerSeq]
    unfold ResolveCond
    rw [if_neg hcl]
    simp [htr]

/-- Witness for C3: concrete instances of all three resolution branches. -/
theorem trigger_resolution_exact_witness :
    (resolvedRunners 0 OpType.set keyN s0C2 = none ∧
      triggerSeq 0 OpType.set keyN s0C2 = []) ∧
    1 ∈ triggerSeq 0 OpType.clear RKey.undef sWit ∧
    0 ∈ triggerSeq 0 OpType.set keyN sWit :=
  ⟨(trigger_resolution_exact 0 OpType.set keyN s0C2 0).1 rfl,
   ((trigger_resolution_exact 0 OpType.clear RKey.undef sWit 1).2.1 rfl
     rfl).mpr ⟨keyN, by decide, by decide⟩,
   ((trigger_resolution_exact 0 OpType.set keyN sWit 0).2.2 rfl
     (by decide)).mpr (Or.inl ⟨by decide, by decide⟩)⟩

/-- C4: the agreement invariant — an effect is a member of a subscriber Set
exactly when that Set's (target, key) pair appears in the effect's deps list
— is preserved by `track` (and its membership step is idempotent: tracking
an effect already in the Set leaves the state literally unchanged), by
cleanup, by `stop`, by an effect run (whenever its computation preserves the
invariant), by a derived-value read, and by a full trigger execution
(whenever every dispatched invocation preserves it). -/
theorem deps_store_agreement :
    (∀ (t : Target) (ty : OpType) (key : RKey) (s : Sys), Inv s →
      Inv (trackPrim t ty key s)) ∧
    (∀ (e : EffectId) (s : Sys), Inv s → Inv (cleanup e s)) ∧
    (∀ (e : EffectId) (s : Sys), Inv s → Inv (stopEff e s)) ∧
    (∀ (e : EffectId) (fn : Sys → Sys × Except Unit Int) (s : Sys),
      (∀ s', Inv s' → Inv (fn s').1) → Inv s → Inv (runEff e fn s).1) ∧
    (∀ (rid : EffectId) (g : Sys → Sys × Int) (s : Sys),
      (∀ s', Inv s' → Inv (g s').1) → Inv s → Inv (computedRead rid g s).1) ∧
    (∀ (t : Target) (ty : OpType) (key : RKey) (disp : EffectId → Sys → Sys)
      (s : Sys), (∀ e s', Inv s' → Inv (disp e s')) → Inv s →
      Inv (triggerExec t ty key disp s)) ∧
    (∀ (t : Target) (ty : OpType) (key : RKey) (e : EffectId) (s : Sys),
      s.shouldTrack = true → s.stack.getLast? = some e →
      s.tracked t = true → normKey ty key ∈ s.keysOf t →
      e ∈ s.depSet t (normKey ty key) → trackPrim t ty key s = s) := by
  refine ⟨?_, ?_, ?_, ?_, ?_, ?_, ?_⟩
  · intro t ty key s h
    exact inv_trackPrim t ty key h
  · intro e s h
    exact inv_cleanup h
  · intro e s h
    exact inv_stopEff h
  · intro e fn s hfn h
    exact inv_runEff hfn h
  · intro rid g s hg h
    exact inv_computedRead hg h
  · intro t ty key disp s hd h
    exact inv_triggerExec hd h
  · intro t ty key e s hst hl htr hk hm
    unfold trackPrim
    rw [if_neg (by simp [hst]), hl]
    show depAdd e t (normKey ty key)
      (ensureDep t (normKey ty key) (ensureMap t s)) = s
    unfold ensureMap
    rw [if_pos (by rw [htr])]
    unfold ensureDep
    rw [if_pos hk]
    unfold depAdd
    rw [if_pos hm]

/-- Witness for C4: the invariant holds after a concrete `track` on a
concrete invariant-satisfying state, and a concrete already-member `track`
is literally the identity. -/
theorem deps_store_agreement_witness :
    Inv (trackPrim 0 OpType.get keyN sWitS) ∧
    trackPrim 0 OpType.get keyN sWitS = sWitS :=
  ⟨deps_store_agreement.1 0 OpType.get keyN sWitS inv_sWit,
   deps_store_agreement.2.2.2.2.2.2 0 OpType.get keyN 0 sWitS rfl rfl rfl
     (by decide) (by decide)⟩

/-- C5: derived-value caching — a read always ends with the dirty flag
false; a read in the clean state is independent of the getter (the getter
runs zero times: the result does not depend on it at all) and returns the
cached value unchanged; the value a read returns is always exactly the cache
left behind; and the scheduler of the wrapped effect only sets the dirty
flag to true (so false arises only from an explicit read). -/
theorem computed_cached_idempotent :
    (∀ (rid : EffectId) (g : Sys → Sys × Int) (s : Sys),
      ((computedRead rid g s).1).dirty = false) ∧
    (∀ (rid : EffectId) (g g' : Sys → Sys × Int) (s : Sys),
      s.dirty = false → computedRead rid g s = computedRead rid g' s) ∧
    (∀ (rid : EffectId) (g : Sys → Sys × Int) (s : Sys), s.dirty = false →
      (computedRead rid g s).2 = s.cval ∧
      ((computedRead rid g s).1).cval = s.cval) ∧
    (∀ (rid : EffectId) (g : Sys → Sys × Int) (s : Sys),
      (computedRead rid g s).2 = ((computedRead rid g s).1).cval) ∧
    (∀ s : Sys, (schedFlip s).dirty = true) := by
  refine ⟨?_, ?_, ?_, ?_, fun s => rfl⟩
  · intro rid g s
    unfold computedRead
    by_cases hd : s.dirty = true
    · rw [if_pos hd]
      show (trackChildRun rid (afterRecompute rid g s)).dirty = false
      rw [trackChildRun_dirty]
      rfl
    · rw [if_neg hd]
      show (trackChildRun rid s).dirty = false
      rw [trackChildRun_dirty]
      exact Bool.not_eq_true _ ▸ hd
  · intro rid g g' s hd
    unfold computedRead
    rw [if_neg (by simp [hd])]
    rw [if_neg (by simp [hd])]
  · intro rid g s hd
    unfold computedRead
    rw [if_neg (by simp [hd])]
    exact ⟨rfl, trackChildRun_cval rid s⟩
  · intro rid g s
    unfold computedRead
    by_cases hd : s.dirty = true
    · rw [if_pos hd]
      show (afterRecompute rid g s).cval =
        (trackChildRun rid (afterRecompute rid g s)).cval
      rw [trackChildRun_cval]
    · rw [if_neg hd]
      show s.cval = (trackChildRun rid s).cval
      rw [trackChildRun_cval]

/-- Witness for C5: a second read of a concrete clean derived value is
getter-independent and returns the cached value 2. -/
theorem computed_cached_idempotent_witness :
    computedRead 0 gD sWit = computedRead 0 (fun s => (s, 0)) sWit ∧
    (computedRead 0 gD sWit).2 = some 2 :=
  ⟨computed_cached_idempotent.2.1 0 gD (fun s => (s, 0)) sWit rfl,
   (computed_cached_idempotent.2.2.1 0 gD sWit rfl).1⟩

/-- C7: stopping an active effect detaches it so that no subsequent trigger
of any kind on any (target, key) invokes it, and stopping an already
inactive effect is literally a no-op. -/
theorem stop_detaches_idempotent (e : EffectId) (s : Sys) :
    (s.active e = true → Inv s →
      ∀ (t : Target) (ty : OpType) (key : RKey),
        e ∉ triggerSeq t ty key (stopEff e s)) ∧
    (s.active e = false → stopEff e s = s) := by
  constructor
  · intro hA h t ty key hmem
    rcases mem_triggerSeq.mp hmem with ⟨_, hcond⟩
    have hnm := stopEff_not_mem hA h
    unfold ResolveCond at hcond
    by_cases hcl : ty = OpType.clear
    · rw [if_pos hcl] at hcond
      rcases hcond with ⟨k, _, hk⟩
      exact hnm t k hk
    · rw [if_neg hcl] at hcond
      rcases hcond with ⟨_, hk⟩ | ⟨_, hk⟩
      · exact hnm t key hk
      · exact hnm t _ hk
  · intro hA
    unfold stopEff
    rw [if_neg (by simp [hA])]

/-- Witness for C7: the concrete stopped effect 0 is absent from a trigger
on its former dependency, and stop of a concrete inactive effect is the
identity. -/
theorem stop_detaches_idempotent_witness :
    0 ∉ triggerSeq 0 OpType.set keyN (stopEff 0 sWit) ∧
    stopEff 0 sWitI = sWitI :=
  ⟨(stop_detaches_idempotent 0 sWit).1 rfl inv_sWit 0 OpType.set keyN,
   (stop_detaches_idempotent 0 sWitI).2 rfl⟩

theorem partOK_nil (s : Sys) : PartOK s ([], []) :=
  ⟨fun x hx => absurd hx (List.not_mem_nil x),
   fun x hx => absurd hx (List.not_mem_nil x)⟩

theorem partOK_addRunners {s : Sys} {p : List EffectId × List EffectId}
    (h : PartOK s p) (dep : List EffectId) : PartOK s (addRunners s p dep) := by
  constructor
  · intro x hx
    rcases (addRunners_mem s dep p x).2.mp hx with hx' | ⟨_, hc⟩
    · exact h.1 x hx'
    · exact hc
  · intro x hx
    rcases (addRunners_mem s dep p x).1.mp hx with hx' | ⟨_, hc⟩
    · exact h.2 x hx'
    · exact hc

theorem partOK_fold {s : Sys} {t : Target} (ks : List RKey) :
    ∀ p, PartOK s p →
      PartOK s (ks.foldl (fun acc k => addRunners s acc (s.depSet t k)) p) := by
  induction ks with
  | nil => intro p h; exact h
  | cons k ks ih =>
    intro p h
    rw [List.foldl_cons]
    exact ih _ (partOK_addRunners h _)

theorem resolvedRunners_partOK {t : Target} {ty : OpType} {key : RKey}
    {s : Sys} {p : List EffectId × List EffectId}
    (hp : resolvedRunners t ty key s = some p) : PartOK s p := by
  unfold resolvedRunners at hp
  by_cases htr : s.tracked t = false
  · rw [if_pos htr] at hp
    cases hp
  · rw [if_neg htr] at hp
    injection hp with hp
    subst hp
    by_cases hcl : ty = OpType.clear
    · rw [if_pos hcl]
      exact partOK_fold _ _ (partOK_nil s)
    · rw [if_neg hcl]
      show PartOK s
        (if ty = OpType.add ∨ ty = OpType.delete then
          addRunners s
            (if key = RKey.undef then ([], [])
             else addRunners s ([], []) (s.depSet t key))
            (s.depSet t (iterationKey t s))
         else
          (if key = RKey.undef then ([], [])
           else addRunners s ([], []) (s.depSet t key)))
      have hacc : PartOK s
          (if key = RKey.undef then ([], [])
           else addRunners s ([], []) (s.depSet t key)) := by
        by_cases hu : key = RKey.undef
        · rw [if_pos hu]
          exact partOK_nil s
        · rw [if_neg hu]
          exact partOK_addRunners (partOK_nil s) _
      by_cases had : ty = OpType.add ∨ ty = OpType.delete
      · rw [if_pos had]
        exact partOK_addRunners hacc _
      · rw [if_neg had]
        exact hacc

/-- C2: every derived-value (computed-marked) subscriber resolved by a
trigger is invoked before any resolved plain subscriber — the invocation
sequence is exactly the computed side followed by the plain side, and the
two sides partition by the computed marker — and, in the concrete
write-through scenario (state S read by derived value D = effect 0, plain
effect A = effect 1 reading D), the write `count = 5` invokes D's
invalidation first, and A's re-run observes D's recomputed value 10,
not the stale cached 2. -/
theorem trigger_computed_before_plain :
    (∀ (t : Target) (ty : OpType) (key : RKey) (s : Sys)
      (p : List EffectId × List EffectId),
      resolvedRunners t ty key s = some p →
      triggerSeq t ty key s = p.2 ++ p.1 ∧
      (∀ x, x ∈ p.2 → s.isComputed x = true) ∧
      (∀ x, x ∈ p.1 → s.isComputed x = false)) ∧
    (triggerSeq 0 OpType.set keyN sW5 = [0, 1] ∧
      sInitC2.cval = some 2 ∧
      sFinC2.cval = some 10 ∧
      sFinC2.dataOf 1 keySeen = 10) := by
  constructor
  · intro t ty key s p hp
    refine ⟨?_, (resolvedRunners_partOK hp).1, (resolvedRunners_partOK hp).2⟩
    unfold triggerSeq
    rw [hp]
  · exact ⟨by decide, by decide, by decide, by decide⟩

/-- Witness for C2: the general part applied at the concrete scenario
resolution, whose computed side is exactly [0] and plain side exactly
[1]. -/
theorem trigger_computed_before_plain_witness :
    triggerSeq 0 OpType.set keyN sW5 = [0] ++ [1] ∧
    (∀ x, x ∈ [0] → sW5.isComputed x = true) ∧
    (∀ x, x ∈ [1] → sW5.isComputed x = false) :=
  trigger_computed_before_plain.1 0 OpType.set keyN sW5 ([1], [0]) (by decide)

theorem lookupR_head (m : List (Nat × Nat)) (a b : Nat) :
    lookupR ((a, b) :: m) a = some b := by
  simp [lookupR]

theorem lookupR_cons_ne (m : List (Nat × Nat)) (a b x : Nat) (h : x ≠ a) :
    lookupR ((a, b) :: m) x = lookupR m x := by
  simp [lookupR, h]

theorem lookupR_none_of_lt {m : List (Nat × Nat)} {n : Nat}
    (h : ∀ q ∈ m, q.1 < n) : lookupR m n = none := by
  induction m with
  | nil => rfl
  | cons q m ih =>
    have h1 := h q (List.mem_cons_self q m)
    have hne : n ≠ q.1 := fun he => absurd (he ▸ h1) (lt_irrefl n)
    cases q with
    | mk a b =>
      rw [lookupR_cons_ne m a b n hne]
      exact ih (fun q' hq' => h q' (List.mem_cons_of_mem _ hq'))

theorem not_mem_of_all_lt {l : List Nat} {n : Nat} (h : ∀ v ∈ l, v < n) :
    n ∉ l := fun hm => lt_irrefl n (h n hm)

/-- C10: `reactive` is idempotent and cached — on an observable object not
yet proxied (with a fresh allocation counter), the first call allocates a
proxy; a second call on the same object returns the identical proxy and
leaves the state unchanged, and calling `reactive` on the proxy itself
returns the proxy unchanged. -/
theorem reactive_idempotent_cached (t : Nat) (s : RSt)
    (hfr : freshR s = true) (hobj : t ∈ s.objs) (hobs : t ∈ s.obsOk)
    (hnr : t ∉ s.nonReactive) (hro : lookupR s.readonlyToRaw t = none)
    (hrv : t ∉ s.readonlyValues) (hcache : lookupR s.rawToReactive t = none)
    (hraw : lookupR s.reactiveToRaw t = none) :
    reactiveF t (reactiveF t s).2 = reactiveF t s ∧
    reactiveF ((reactiveF t s).1) (reactiveF t s).2 = reactiveF t s := by
  have hco : canObserve t s = true := by
    simp [canObserve, hobs, hnr]
  have h1 : reactiveF t s =
      (s.nextId,
        { s with
          rawToReactive := (t, s.nextId) :: s.rawToReactive,
          reactiveToRaw := (s.nextId, t) :: s.reactiveToRaw,
          objs := s.nextId :: s.objs,
          trackedR := if t ∈ s.trackedR then s.trackedR else t :: s.trackedR,
          nextId := s.nextId + 1 }) := by
    unfold reactiveF
    rw [if_neg (by rw [hro]; simp)]
    rw [if_neg hrv]
    unfold createReactiveObject
    simp only [Bool.false_eq_true, if_false]
    rw [if_neg (not_not_intro hobj)]
    rw [if_neg (by rw [hcache]; simp)]
    rw [if_neg (by rw [hraw]; simp)]
    rw [if_neg (not_not_intro hco)]
  have hfr' := hfr
  unfold freshR at hfr'
  simp only [Bool.and_eq_true, List.all_eq_true, decide_eq_true_eq] at hfr'
  obtain ⟨⟨⟨⟨⟨⟨⟨hR1, hR2⟩, hR3⟩, hR4⟩, hR5⟩, hR6⟩, hR7⟩, hR8⟩ := hfr'
  have htlt : t < s.nextId := hR7 t hobj
  rw [h1]
  constructor
  · unfold reactiveF
    rw [if_neg (by rw [hro]; simp)]
    rw [if_neg hrv]
    unfold createReactiveObject
    simp only [Bool.false_eq_true, if_false]
    rw [if_neg (not_not_intro (List.mem_cons_of_mem _ hobj))]
    rw [if_pos (by rw [lookupR_head]; rfl)]
    rw [lookupR_head]
    rfl
  · unfold reactiveF
    rw [if_neg (by
      rw [lookupR_none_of_lt (fun q hq => (hR4 q hq).1)]; simp)]
    rw [if_neg (not_mem_of_all_lt hR5)]
    unfold createReactiveObject
    simp only [Bool.false_eq_true, if_false]
    rw [if_neg (not_not_intro (List.mem_cons_self _ _))]
    have hne : s.nextId ≠ t := fun he => absurd (he ▸ htlt) (lt_irrefl t)
    rw [if_neg (by
      rw [lookupR_cons_ne _ _ _ _ hne,
        lookupR_none_of_lt (fun q hq => (hR1 q hq).1)]; simp)]
    rw [if_pos (by rw [lookupR_head]; rfl)]

/-- Witness for C10 at the concrete one-object initial state. -/
theorem reactive_idempotent_cached_witness :
    reactiveF 0 (reactiveF 0 r0).2 = reactiveF 0 r0 ∧
    reactiveF ((reactiveF 0 r0).1) (reactiveF 0 r0).2 = reactiveF 0 r0 :=
  reactive_idempotent_cached 0 r0 (by decide) (by decide) (by decide)
    (by decide) (by decide) (by decide) (by decide) (by decide)

end VueCore

